import Mathlib

/-!
Verification of the source-hierarchy / confirmation-status reconciliation
core (`src/rules.py`).

The embedding below translates `rules.py` directly:
* `DataSource` / `ConfirmationStatus` are the two Python enums;
* the hierarchy and confirmation priorities are computed, as in the code,
  as the tag's index in a hand-authored order list;
* `SOURCE_TO_CONFIRMATION` is the dict, kept as an association list so that
  the fallible lookup (Python `dict[key]`, which raises `KeyError` on a
  missing key) is modelled by `List.lookup`;
* `select_most_relevant_data` follows the Python function step by step.
  Python's `sorted` is a stable sort; a stable sort on the same keys is
  extensionally unique, so it is embedded as a stable insertion sort
  (`sortAsc` for `sorted(..., key=...)`, `sortDesc` for
  `sorted(..., key=..., reverse=True)`; Python's `reverse=True` keeps
  equal elements in their original order, it does not reverse them).
  `datetime` timestamps are embedded as `Nat` instants (only their total
  order is ever used).  The `ValueError` raised on an empty input is
  modelled by returning `none`.
-/

/-- The `DataSource` enum of `rules.py` (five source tags). -/
inductive DataSource where
  | FSIN
  | ROSSTAT
  | AUDIT_RU
  | MANUAL_CONFIRMED
  | MANUAL_UNCONFIRMED
deriving DecidableEq, Repr, Fintype

/-- The `hierarchy_order` list inside `DataSource.get_hierarchy_priority`. -/
def hierarchy_order : List DataSource :=
  [DataSource.FSIN, DataSource.ROSSTAT, DataSource.AUDIT_RU,
   DataSource.MANUAL_CONFIRMED, DataSource.MANUAL_UNCONFIRMED]

/-- Embedding of `DataSource.get_hierarchy_priority`: index of the source in
`hierarchy_order` (Python `list.index`; lower = higher priority). -/
def DataSource.get_hierarchy_priority (source : DataSource) : Nat :=
  hierarchy_order.indexOf source

/-- The `ConfirmationStatus` enum of `rules.py` (three status tags). -/
inductive ConfirmationStatus where
  | CONFIRMED
  | MANUAL_CONFIRMED
  | MANUAL_UNCONFIRMED
deriving DecidableEq, Repr, Fintype

/-- The `confirmation_order` list inside
`ConfirmationStatus.get_confirmation_priority`. -/
def confirmation_order : List ConfirmationStatus :=
  [ConfirmationStatus.CONFIRMED, ConfirmationStatus.MANUAL_CONFIRMED,
   ConfirmationStatus.MANUAL_UNCONFIRMED]

/-- Embedding of `ConfirmationStatus.get_confirmation_priority`: index of the status in
`confirmation_order`. -/
def ConfirmationStatus.get_confirmation_priority (status : ConfirmationStatus) : Nat :=
  confirmation_order.indexOf status

/-- Embedding of `DataRules.SOURCE_TO_CONFIRMATION`: the dict mapping each source to its
confirmation status, kept as an association list (dict literal order). -/
def SOURCE_TO_CONFIRMATION : List (DataSource × ConfirmationStatus) :=
  [(DataSource.FSIN, ConfirmationStatus.CONFIRMED),
   (DataSource.ROSSTAT, ConfirmationStatus.CONFIRMED),
   (DataSource.AUDIT_RU, ConfirmationStatus.CONFIRMED),
   (DataSource.MANUAL_CONFIRMED, ConfirmationStatus.MANUAL_CONFIRMED),
   (DataSource.MANUAL_UNCONFIRMED, ConfirmationStatus.MANUAL_UNCONFIRMED)]

/-- Embedding of `DataRules.get_confirmation_status` as the fallible dict lookup:
Python `cls.SOURCE_TO_CONFIRMATION[source]` raises `KeyError` (here `none`)
when the key is absent. -/
def get_confirmation_status? (source : DataSource) : Option ConfirmationStatus :=
  SOURCE_TO_CONFIRMATION.lookup source

/-- Embedding of `DataRules.get_confirmation_status`, total form.  The dict covers every
source tag (proved below), so the `KeyError` branch of the lookup is
unreachable and the lookup denotes this total function. -/
def get_confirmation_status (source : DataSource) : ConfirmationStatus :=
  match source with
  | DataSource.FSIN => ConfirmationStatus.CONFIRMED
  | DataSource.ROSSTAT => ConfirmationStatus.CONFIRMED
  | DataSource.AUDIT_RU => ConfirmationStatus.CONFIRMED
  | DataSource.MANUAL_CONFIRMED => ConfirmationStatus.MANUAL_CONFIRMED
  | DataSource.MANUAL_UNCONFIRMED => ConfirmationStatus.MANUAL_UNCONFIRMED

/-- Embedding of `DataRules.compare_data_sources`: tri-state comparison of two sources by
hierarchy priority. -/
def compare_data_sources (source1 source2 : DataSource) : Int :=
  let priority1 := DataSource.get_hierarchy_priority source1
  let priority2 := DataSource.get_hierarchy_priority source2
  if priority1 < priority2 then -1
  else if priority2 < priority1 then 1
  else 0

/-- Embedding of `DataRules.compare_confirmation_status`: tri-state comparison of two
confirmation statuses by confirmation priority. -/
def compare_confirmation_status (status1 status2 : ConfirmationStatus) : Int :=
  let priority1 := ConfirmationStatus.get_confirmation_priority status1
  let priority2 := ConfirmationStatus.get_confirmation_priority status2
  if priority1 < priority2 then -1
  else if priority2 < priority1 then 1
  else 0

/-- An observation record (`{'data': ..., 'source': ..., 'timestamp': ...}`),
with the payload type left opaque. -/
structure Obs (α : Type) where
  data : α
  source : DataSource
  timestamp : Nat
deriving Repr, DecidableEq

/-- Confirmation status of an observation (`get_confirmation_status(point['source'])`). -/
def confKey {α : Type} (p : Obs α) : ConfirmationStatus :=
  get_confirmation_status p.source

/-- Hierarchy priority of an observation's source
(`get_hierarchy_priority(x['source'])`). -/
def srcKey {α : Type} (p : Obs α) : Nat :=
  DataSource.get_hierarchy_priority p.source

/-- First-occurrence deduplication: the key list of a Python dict built by
inserting keys one by one (insertion order, each key once). -/
def dict_keys : List ConfirmationStatus → List ConfirmationStatus → List ConfirmationStatus
  | acc, [] => acc
  | acc, s :: rest => dict_keys (if s ∈ acc then acc else acc ++ [s]) rest

/-- The key set of `confirmation_groups` after step 1 of
`select_most_relevant_data`, in dict insertion order. -/
def group_keys {α : Type} (l : List (Obs α)) : List ConfirmationStatus :=
  dict_keys [] (l.map confKey)

/-- Python `min(keys, key=get_confirmation_priority)` over a non-empty key
list: first element of minimal priority, `none` on the empty list
(Python raises `ValueError` there). -/
def min_key : List ConfirmationStatus → Option ConfirmationStatus
  | [] => none
  | s :: rest =>
    some (rest.foldl
      (fun b x =>
        if ConfirmationStatus.get_confirmation_priority x <
            ConfirmationStatus.get_confirmation_priority b then x else b) s)

/-- One step of a stable ascending insertion sort by a `Nat` key: insert `x`
before the first element with a strictly larger key. -/
def insertAsc {β : Type} (key : β → Nat) (x : β) : List β → List β
  | [] => [x]
  | y :: ys => if key x ≤ key y then x :: y :: ys else y :: insertAsc key x ys

/-- Stable ascending sort by a `Nat` key; extensionally Python
`sorted(l, key=key)`. -/
def sortAsc {β : Type} (key : β → Nat) : List β → List β
  | [] => []
  | x :: xs => insertAsc key x (sortAsc key xs)

/-- One step of a stable descending insertion sort by a `Nat` key: insert `x`
before the first element with a strictly smaller key. -/
def insertDesc {β : Type} (key : β → Nat) (x : β) : List β → List β
  | [] => [x]
  | y :: ys => if key y ≤ key x then x :: y :: ys else y :: insertDesc key x ys

/-- Stable descending sort by a `Nat` key; extensionally Python
`sorted(l, key=key, reverse=True)` (ties keep input order). -/
def sortDesc {β : Type} (key : β → Nat) : List β → List β
  | [] => []
  | x :: xs => insertDesc key x (sortDesc key xs)

/-- Embedding of `select_most_relevant_data` of `rules.py`, step by step.
`none` models the `ValueError` on empty input; the two inner `none`
branches model list accesses that are unreachable on the code's paths
(they are proved unreachable below). -/
def select_most_relevant_data {α : Type} (l : List (Obs α)) : Option (Obs α) :=
  if l.isEmpty then none
  else
    match min_key (group_keys l) with
    | none => none
    | some best_confirmation =>
      let candidates := l.filter (fun p => confKey p = best_confirmation)
      if candidates.length = 1 then candidates.head?
      else
        let source_priority_candidates := sortAsc srcKey candidates
        match source_priority_candidates with
        | [] => none
        | c :: _ =>
          let best_source_priority := srcKey c
          let best_source_candidates :=
            source_priority_candidates.filter
              (fun p => srcKey p = best_source_priority)
          if best_source_candidates.length = 1 then best_source_candidates.head?
          else (sortDesc (fun p => p.timestamp) best_source_candidates).head?

/-!
Reference definitions.  These three follow the SPEC's description of the
simpler selection procedure (restrict to the observations of minimal source
rank, then take the latest timestamp, earliest in input order on ties); the
refinement claims compare `select_most_relevant_data` against them.
-/

/-- Spec-side reference: the member with the latest timestamp; on an exact
timestamp tie, the one appearing earliest in the input order. -/
def latest_earliest {α : Type} : List (Obs α) → Option (Obs α)
  | [] => none
  | x :: xs =>
    match latest_earliest xs with
    | none => some x
    | some m => some (if x.timestamp < m.timestamp then m else x)

/-- Spec-side reference: the minimal source rank occurring in the input. -/
def min_src_rank {α : Type} : List (Obs α) → Option Nat
  | [] => none
  | x :: xs => some (xs.foldl (fun b p => min (srcKey p) b) (srcKey x))

/-- Spec-side reference: restrict to the observations of minimal source
rank, then pick the latest timestamp, earliest in input order on ties. -/
def simple_select {α : Type} (l : List (Obs α)) : Option (Obs α) :=
  match min_src_rank l with
  | none => none
  | some m => latest_earliest (l.filter (fun p => srcKey p = m))

/-! Machinery for the payload-opacity claim: `select` commutes with any
re-mapping of the opaque payloads. -/

/-- Replace the payload, keep source and timestamp. -/
def mapData {α β : Type} (f : α → β) (p : Obs α) : Obs β :=
  ⟨f p.data, p.source, p.timestamp⟩

/- Sanity checks against the algorithm's intended behaviour
(the concrete scenarios of spec §8). -/
example :
    select_most_relevant_data
      [⟨100, DataSource.MANUAL_UNCONFIRMED, 10⟩,
       ⟨200, DataSource.ROSSTAT, 9⟩,
       ⟨150, DataSource.FSIN, 8⟩] =
      some (⟨150, DataSource.FSIN, 8⟩ : Obs Nat) := by decide

example :
    select_most_relevant_data
      [⟨1, DataSource.ROSSTAT, 0⟩, ⟨2, DataSource.ROSSTAT, 1⟩] =
      some (⟨2, DataSource.ROSSTAT, 1⟩ : Obs Nat) := by decide

example :
    select_most_relevant_data
      [⟨1, DataSource.ROSSTAT, 5⟩, ⟨2, DataSource.ROSSTAT, 5⟩] =
      some (⟨1, DataSource.ROSSTAT, 5⟩ : Obs Nat) := by decide

example : select_most_relevant_data ([] : List (Obs Nat)) = none := by decide

/-! Basic facts about the two rank tables and the confirmation map. -/

theorem conf_priority_inj :
    ∀ s t : ConfirmationStatus,
      s.get_confirmation_priority = t.get_confirmation_priority → s = t := by
  decide

theorem src_priority_inj :
    ∀ a b : DataSource,
      a.get_hierarchy_priority = b.get_hierarchy_priority → a = b := by
  decide

/-- The source→confirmation map is monotone along the source hierarchy: a
more trusted source never maps to a strictly worse confirmation status. -/
theorem conf_monotone :
    ∀ a b : DataSource,
      a.get_hierarchy_priority ≤ b.get_hierarchy_priority →
      (get_confirmation_status a).get_confirmation_priority ≤
        (get_confirmation_status b).get_confirmation_priority := by
  decide

/-- The dict lookup agrees with the total function on every source tag. -/
theorem lookup_total :
    ∀ s : DataSource,
      get_confirmation_status? s = some (get_confirmation_status s) := by
  decide

/-! Lemmas about the stable insertion sorts. -/

theorem mem_insertAsc {β : Type} (key : β → Nat) (x a : β) (l : List β) :
    a ∈ insertAsc key x l ↔ a = x ∨ a ∈ l := by
  induction l with
  | nil => simp [insertAsc]
  | cons y ys ih =>
    rw [insertAsc]
    by_cases h : key x ≤ key y
    · rw [if_pos h]
      simp [List.mem_cons]
    · rw [if_neg h]
      simp only [List.mem_cons, ih]
      tauto

theorem length_insertAsc {β : Type} (key : β → Nat) (x : β) (l : List β) :
    (insertAsc key x l).length = l.length + 1 := by
  induction l with
  | nil => rfl
  | cons y ys ih =>
    rw [insertAsc]
    by_cases h : key x ≤ key y
    · rw [if_pos h]; rfl
    · rw [if_neg h]
      simp [ih]

theorem mem_sortAsc {β : Type} (key : β → Nat) (a : β) (l : List β) :
    a ∈ sortAsc key l ↔ a ∈ l := by
  induction l with
  | nil => simp [sortAsc]
  | cons x xs ih =>
    rw [sortAsc, mem_insertAsc]
    simp [List.mem_cons, ih]

theorem length_sortAsc {β : Type} (key : β → Nat) (l : List β) :
    (sortAsc key l).length = l.length := by
  induction l with
  | nil => rfl
  | cons x xs ih =>
    rw [sortAsc, length_insertAsc, ih]
    rfl

theorem sortAsc_head_le {β : Type} (key : β → Nat) :
    ∀ (l : List β) (c : β) (t : List β), sortAsc key l = c :: t →
      ∀ y ∈ l, key c ≤ key y := by
  intro l
  induction l with
  | nil => intro c t h; simp [sortAsc] at h
  | cons x xs ih =>
    intro c t h y hy
    rw [sortAsc] at h
    rcases hsx : sortAsc key xs with _ | ⟨d, t'⟩
    · rw [hsx] at h
      rw [insertAsc] at h
      injection h with h1 h2
      have hxs : xs = [] := by
        have hlen := length_sortAsc key xs
        rw [hsx] at hlen
        exact List.length_eq_zero.mp hlen.symm
      subst hxs
      rcases List.mem_singleton.mp hy with rfl
      rw [← h1]
    · rw [hsx] at h
      rw [insertAsc] at h
      by_cases hcmp : key x ≤ key d
      · rw [if_pos hcmp] at h
        injection h with h1 h2
        rw [← h1]
        rcases List.mem_cons.mp hy with rfl | hy'
        · exact Nat.le_refl _
        · exact Nat.le_trans hcmp (ih d t' hsx y hy')
      · rw [if_neg hcmp] at h
        injection h with h1 h2
        rw [← h1]
        rcases List.mem_cons.mp hy with rfl | hy'
        · exact Nat.le_of_not_le hcmp
        · exact ih d t' hsx y hy'

theorem filter_insertAsc_of_ne {β : Type} (key : β → Nat) (m : Nat) (x : β)
    (hx : ¬ key x = m) (l : List β) :
    (insertAsc key x l).filter (fun y => key y = m) =
      l.filter (fun y => key y = m) := by
  induction l with
  | nil => simp [insertAsc, hx]
  | cons y ys ih =>
    rw [insertAsc]
    by_cases h : key x ≤ key y
    · rw [if_pos h]
      simp [List.filter_cons, hx]
    · rw [if_neg h]
      simp only [List.filter_cons, ih]

theorem filter_insertAsc_of_eq {β : Type} (key : β → Nat) (m : Nat) (x : β)
    (hx : key x = m) (l : List β) (hmin : ∀ y ∈ l, m ≤ key y) :
    (insertAsc key x l).filter (fun y => key y = m) =
      x :: l.filter (fun y => key y = m) := by
  cases l with
  | nil => simp [insertAsc, hx]
  | cons y ys =>
    rw [insertAsc, if_pos (hx ▸ hmin y (List.mem_cons_self y ys))]
    simp [List.filter_cons, hx]

theorem filter_sortAsc {β : Type} (key : β → Nat) (m : Nat) (l : List β)
    (hmin : ∀ y ∈ l, m ≤ key y) :
    (sortAsc key l).filter (fun y => key y = m) =
      l.filter (fun y => key y = m) := by
  induction l with
  | nil => rfl
  | cons x xs ih =>
    have hmin' : ∀ y ∈ xs, m ≤ key y := fun y hy => hmin y (List.mem_cons_of_mem x hy)
    rw [sortAsc]
    by_cases hx : key x = m
    · rw [filter_insertAsc_of_eq key m x hx _
        (fun y hy => hmin' y ((mem_sortAsc key y xs).mp hy))]
      rw [ih hmin']
      simp [List.filter_cons, hx]
    · rw [filter_insertAsc_of_ne key m x hx]
      rw [ih hmin']
      simp [List.filter_cons, hx]

theorem head?_sortDesc_eq_latest {α : Type} (l : List (Obs α)) :
    (sortDesc (fun p => p.timestamp) l).head? = latest_earliest l := by
  induction l with
  | nil => rfl
  | cons x xs ih =>
    rcases h : sortDesc (fun p => p.timestamp) xs with _ | ⟨y, ys⟩
    · have hlx : latest_earliest xs = none := by
        rw [← ih, h]
        rfl
      rw [sortDesc, latest_earliest, hlx, h]
      rfl
    · have hlx : latest_earliest xs = some y := by
        rw [← ih, h]
        rfl
      rw [sortDesc, latest_earliest, hlx, h, insertDesc]
      by_cases hc : y.timestamp ≤ x.timestamp
      · rw [if_pos hc]
        show some x = some (if x.timestamp < y.timestamp then y else x)
        rw [if_neg (by omega : ¬ x.timestamp < y.timestamp)]
      · rw [if_neg hc]
        show some y = some (if x.timestamp < y.timestamp then y else x)
        rw [if_pos (by omega : x.timestamp < y.timestamp)]

/-! Lemmas about the minimum computations and the dict key list. -/

theorem foldl_min_key_mem_le (rest : List ConfirmationStatus) :
    ∀ b0 : ConfirmationStatus,
      (rest.foldl
        (fun b x =>
          if ConfirmationStatus.get_confirmation_priority x <
              ConfirmationStatus.get_confirmation_priority b then x else b) b0)
        ∈ b0 :: rest ∧
      ∀ x ∈ b0 :: rest,
        (rest.foldl
          (fun b x =>
            if ConfirmationStatus.get_confirmation_priority x <
                ConfirmationStatus.get_confirmation_priority b then x else b) b0).get_confirmation_priority
          ≤ x.get_confirmation_priority := by
  induction rest with
  | nil =>
    intro b0
    constructor
    · exact List.mem_singleton.mpr rfl
    · intro x hx
      rcases List.mem_singleton.mp hx with rfl
      exact Nat.le_refl _
  | cons k kr ih =>
    intro b0
    rw [List.foldl_cons]
    set b1 := if ConfirmationStatus.get_confirmation_priority k <
        ConfirmationStatus.get_confirmation_priority b0 then k else b0 with hb1
    have hb1mem : b1 = k ∨ b1 = b0 := by
      rw [hb1]
      by_cases h : ConfirmationStatus.get_confirmation_priority k <
          ConfirmationStatus.get_confirmation_priority b0
      · rw [if_pos h]; exact Or.inl rfl
      · rw [if_neg h]; exact Or.inr rfl
    have hb1le : b1.get_confirmation_priority ≤ b0.get_confirmation_priority ∧
        b1.get_confirmation_priority ≤ k.get_confirmation_priority := by
      rw [hb1]
      by_cases h : ConfirmationStatus.get_confirmation_priority k <
          ConfirmationStatus.get_confirmation_priority b0
      · rw [if_pos h]
        exact ⟨Nat.le_of_lt h, Nat.le_refl _⟩
      · rw [if_neg h]
        exact ⟨Nat.le_refl _, Nat.le_of_not_lt h⟩
    obtain ⟨ihmem, ihle⟩ := ih b1
    constructor
    · rcases List.mem_cons.mp ihmem with hr | hr
      · rcases hb1mem with hk | hk
        · rw [hr, hk]
          exact List.mem_cons_of_mem _ (List.mem_cons_self _ _)
        · rw [hr, hk]
          exact List.mem_cons_self _ _
      · exact List.mem_cons_of_mem _ (List.mem_cons_of_mem _ hr)
    · intro x hx
      rcases List.mem_cons.mp hx with rfl | hx'
      · exact Nat.le_trans (ihle b1 (List.mem_cons_self _ _)) hb1le.1
      · rcases List.mem_cons.mp hx' with rfl | hx''
        · exact Nat.le_trans (ihle b1 (List.mem_cons_self _ _)) hb1le.2
        · exact ihle x (List.mem_cons_of_mem _ hx'')

theorem min_key_spec (ks : List ConfirmationStatus) (b : ConfirmationStatus)
    (h : min_key ks = some b) :
    b ∈ ks ∧ ∀ x ∈ ks,
      b.get_confirmation_priority ≤ x.get_confirmation_priority := by
  cases ks with
  | nil => simp [min_key] at h
  | cons s rest =>
    rw [min_key] at h
    injection h with h1
    obtain ⟨hm, hle⟩ := foldl_min_key_mem_le rest s
    rw [h1] at hm hle
    exact ⟨hm, hle⟩

theorem foldl_min_src_spec {α : Type} (xs : List (Obs α)) :
    ∀ b0 : Nat,
      ((xs.foldl (fun b p => min (srcKey p) b) b0) = b0 ∨
        ∃ p ∈ xs, srcKey p = xs.foldl (fun b p => min (srcKey p) b) b0) ∧
      xs.foldl (fun b p => min (srcKey p) b) b0 ≤ b0 ∧
      ∀ p ∈ xs, xs.foldl (fun b p => min (srcKey p) b) b0 ≤ srcKey p := by
  induction xs with
  | nil =>
    intro b0
    refine ⟨Or.inl rfl, Nat.le_refl _, ?_⟩
    intro p hp
    simp at hp
  | cons q r ih =>
    intro b0
    rw [List.foldl_cons]
    obtain ⟨ihmem, ihb, ihle⟩ := ih (min (srcKey q) b0)
    have hminle : min (srcKey q) b0 ≤ b0 := Nat.min_le_right _ _
    have hminleq : min (srcKey q) b0 ≤ srcKey q := Nat.min_le_left _ _
    refine ⟨?_, Nat.le_trans ihb hminle, ?_⟩
    · rcases ihmem with he | ⟨p, hp, he⟩
      · rcases Nat.le_total (srcKey q) b0 with hq | hq
        · refine Or.inr ⟨q, List.mem_cons_self _ _, ?_⟩
          rw [he, Nat.min_eq_left hq]
        · refine Or.inl ?_
          rw [he, Nat.min_eq_right hq]
      · exact Or.inr ⟨p, List.mem_cons_of_mem _ hp, he⟩
    · intro p hp
      rcases List.mem_cons.mp hp with rfl | hp'
      · exact Nat.le_trans ihb hminleq
      · exact ihle p hp'

theorem min_src_rank_spec {α : Type} (l : List (Obs α)) (m : Nat)
    (h : min_src_rank l = some m) :
    (∃ p ∈ l, srcKey p = m) ∧ ∀ p ∈ l, m ≤ srcKey p := by
  cases l with
  | nil => simp [min_src_rank] at h
  | cons x xs =>
    rw [min_src_rank] at h
    injection h with h1
    obtain ⟨hmem, hb, hle⟩ := foldl_min_src_spec xs (srcKey x)
    rw [h1] at hmem hb hle
    constructor
    · rcases hmem with he | ⟨p, hp, he⟩
      · exact ⟨x, List.mem_cons_self _ _, he.symm⟩
      · exact ⟨p, List.mem_cons_of_mem _ hp, he⟩
    · intro p hp
      rcases List.mem_cons.mp hp with rfl | hp'
      · exact hb
      · exact hle p hp'

theorem min_src_rank_isSome {α : Type} (l : List (Obs α)) (hne : l ≠ []) :
    ∃ m, min_src_rank l = some m := by
  cases l with
  | nil => exact absurd rfl hne
  | cons x xs => exact ⟨_, rfl⟩

theorem mem_dict_keys (ks : List ConfirmationStatus) :
    ∀ (acc : List ConfirmationStatus) (s : ConfirmationStatus),
      s ∈ dict_keys acc ks ↔ s ∈ acc ∨ s ∈ ks := by
  induction ks with
  | nil =>
    intro acc s
    rw [dict_keys]
    simp
  | cons k kr ih =>
    intro acc s
    rw [dict_keys, ih]
    by_cases hk : k ∈ acc
    · rw [if_pos hk]
      simp only [List.mem_cons]
      constructor
      · rintro (h | h)
        · exact Or.inl h
        · exact Or.inr (Or.inr h)
      · rintro (h | h | h)
        · exact Or.inl h
        · exact Or.inl (h ▸ hk)
        · exact Or.inr h
    · rw [if_neg hk]
      simp only [List.mem_append, List.mem_singleton, List.mem_cons]
      tauto

theorem mem_group_keys {α : Type} (l : List (Obs α)) (s : ConfirmationStatus) :
    s ∈ group_keys l ↔ ∃ p ∈ l, confKey p = s := by
  rw [group_keys, mem_dict_keys]
  simp [List.mem_map]

theorem min_key_group_isSome {α : Type} (l : List (Obs α)) (hne : l ≠ []) :
    ∃ b, min_key (group_keys l) = some b := by
  have hgk : group_keys l ≠ [] := by
    cases l with
    | nil => exact absurd rfl hne
    | cons x xs =>
      intro hcon
      have : confKey x ∈ group_keys (x :: xs) :=
        (mem_group_keys _ _).mpr ⟨x, List.mem_cons_self _ _, rfl⟩
      rw [hcon] at this
      simp at this
  cases hgk2 : group_keys l with
  | nil => exact absurd hgk2 hgk
  | cons s rest => exact ⟨_, rfl⟩

/-- The reference tie-break really picks the latest timestamp, and among
equal maxima the earliest input position. -/
theorem latest_earliest_spec {α : Type} :
    ∀ (l : List (Obs α)), l ≠ [] →
      ∃ (m : Obs α) (i : Nat) (hi : i < l.length),
        latest_earliest l = some m ∧ l.get ⟨i, hi⟩ = m ∧
        (∀ p ∈ l, p.timestamp ≤ m.timestamp) ∧
        ∀ (j : Nat) (hj : j < l.length), j < i →
          (l.get ⟨j, hj⟩).timestamp < m.timestamp := by
  intro l
  induction l with
  | nil => intro h; exact absurd rfl h
  | cons x xs ih =>
    intro _
    cases xs with
    | nil =>
      refine ⟨x, 0, Nat.zero_lt_one, rfl, rfl, ?_, ?_⟩
      · intro p hp
        rcases List.mem_singleton.mp hp with rfl
        exact Nat.le_refl _
      · intro j hj hji
        exact absurd hji (Nat.not_lt_zero j)
    | cons y ys =>
      obtain ⟨m, i, hi, h1, h2, h3, h4⟩ := ih (List.cons_ne_nil y ys)
      rw [latest_earliest, h1]
      by_cases hc : x.timestamp < m.timestamp
      · refine ⟨m, i + 1, Nat.succ_lt_succ hi, ?_, ?_, ?_, ?_⟩
        · show some (if x.timestamp < m.timestamp then m else x) = some m
          rw [if_pos hc]
        · exact h2
        · intro p hp
          rcases List.mem_cons.mp hp with rfl | hp'
          · exact Nat.le_of_lt hc
          · exact h3 p hp'
        · intro j hj hji
          cases j with
          | zero => exact hc
          | succ k =>
            exact h4 k (Nat.lt_of_succ_lt_succ hj) (Nat.lt_of_succ_lt_succ hji)
      · refine ⟨x, 0, Nat.succ_pos _, ?_, rfl, ?_, ?_⟩
        · show some (if x.timestamp < m.timestamp then m else x) = some x
          rw [if_neg hc]
        · intro p hp
          rcases List.mem_cons.mp hp with rfl | hp'
          · exact Nat.le_refl _
          · exact Nat.le_trans (h3 p hp') (Nat.le_of_not_lt hc)
        · intro j hj hji
          exact absurd hji (Nat.not_lt_zero j)

/-- Master refinement lemma: on any non-empty input the full cascade of
`select_most_relevant_data` coincides with the simple procedure
`simple_select` (restrict to minimal source rank, then latest timestamp,
earliest on ties).  This rests on the monotonicity of the
source-to-confirmation map along the hierarchy. -/
theorem select_eq_simple {α : Type} (l : List (Obs α)) (hne : l ≠ []) :
    select_most_relevant_data l = simple_select l := by
  obtain ⟨b, hb⟩ := min_key_group_isSome l hne
  obtain ⟨hbmem, hble⟩ := min_key_spec _ _ hb
  obtain ⟨m, hm⟩ := min_src_rank_isSome l hne
  obtain ⟨⟨g, hgmem, hgsrc⟩, hmle⟩ := min_src_rank_spec l m hm
  have hconf_of_min : ∀ p ∈ l, srcKey p = m → confKey p = b := by
    intro p hp hpm
    have hmin : ∀ q ∈ l, (confKey p).get_confirmation_priority ≤
        (confKey q).get_confirmation_priority := by
      intro q hq
      exact conf_monotone p.source q.source (le_of_eq_of_le hpm (hmle q hq))
    obtain ⟨q0, hq0, hq0b⟩ := (mem_group_keys l b).mp hbmem
    have h1 : (confKey p).get_confirmation_priority ≤ b.get_confirmation_priority := by
      rw [← hq0b]
      exact hmin q0 hq0
    have h2 : b.get_confirmation_priority ≤ (confKey p).get_confirmation_priority :=
      hble _ ((mem_group_keys l (confKey p)).mpr ⟨p, hp, rfl⟩)
    exact conf_priority_inj _ _ (Nat.le_antisymm h1 h2)
  have hgb : confKey g = b := hconf_of_min g hgmem hgsrc
  have hgcand : g ∈ l.filter (fun p => confKey p = b) := by
    rw [List.mem_filter]
    exact ⟨hgmem, by simp [hgb]⟩
  have hfilter_eq : l.filter (fun p => srcKey p = m) =
      (l.filter (fun p => confKey p = b)).filter (fun p => srcKey p = m) := by
    rw [List.filter_filter]
    apply List.filter_congr
    intro p hp
    by_cases hpm : srcKey p = m
    · simp [hpm, hconf_of_min p hp hpm]
    · simp [hpm]
  have hsimple : simple_select l = latest_earliest (l.filter (fun p => srcKey p = m)) := by
    rw [simple_select, hm]
  rw [hsimple]
  have hisE : l.isEmpty = false := by
    cases l with
    | nil => exact absurd rfl hne
    | cons => rfl
  simp only [select_most_relevant_data, hisE, Bool.false_eq_true, if_false, hb]
  by_cases hclen : (l.filter (fun p => confKey p = b)).length = 1
  · rw [if_pos hclen]
    obtain ⟨c, hc⟩ := List.length_eq_one.mp hclen
    have hgc : g = c := by
      rw [hc] at hgcand
      exact List.mem_singleton.mp hgcand
    have hsrcc : srcKey c = m := by
      rw [← hgc]
      exact hgsrc
    have hflt : l.filter (fun p => srcKey p = m) = [c] := by
      rw [hfilter_eq, hc]
      simp [List.filter_cons, hsrcc]
    rw [hflt, hc]
    rfl
  · rw [if_neg hclen]
    have hCne : l.filter (fun p => confKey p = b) ≠ [] := by
      intro h0
      rw [h0] at hgcand
      simp at hgcand
    rcases hspc : sortAsc srcKey (l.filter (fun p => confKey p = b)) with _ | ⟨c, t⟩
    · exfalso
      have hlen := length_sortAsc srcKey (l.filter (fun p => confKey p = b))
      rw [hspc] at hlen
      exact hCne (List.length_eq_zero.mp hlen.symm)
    · simp only [hspc]
      have hcmem : c ∈ l.filter (fun p => confKey p = b) := by
        rw [← mem_sortAsc srcKey c (l.filter (fun p => confKey p = b)), hspc]
        exact List.mem_cons_self _ _
      have hcl : c ∈ l := (List.mem_filter.mp hcmem).1
      have hcm : srcKey c = m := by
        have hle1 : srcKey c ≤ srcKey g :=
          sortAsc_head_le srcKey _ c t hspc g hgcand
        exact Nat.le_antisymm (le_of_le_of_eq hle1 hgsrc) (hmle c hcl)
      have hmminC : ∀ y ∈ l.filter (fun p => confKey p = b), m ≤ srcKey y :=
        fun y hy => hmle y (List.mem_filter.mp hy).1
      have hbsc : (c :: t).filter (fun p => srcKey p = srcKey c) =
          l.filter (fun p => srcKey p = m) := by
        rw [← hspc, hcm, filter_sortAsc srcKey m _ hmminC, ← hfilter_eq]
      rw [hbsc]
      by_cases hblen : (l.filter (fun p => srcKey p = m)).length = 1
      · rw [if_pos hblen]
        obtain ⟨d, hd⟩ := List.length_eq_one.mp hblen
        rw [hd]
        rfl
      · rw [if_neg hblen]
        exact head?_sortDesc_eq_latest _

/-- The selected observation exists, is a member of the input, and carries
the minimal source rank of the whole input. -/
theorem select_some_mem {α : Type} (l : List (Obs α)) (hne : l ≠ []) :
    ∃ o, select_most_relevant_data l = some o ∧ o ∈ l ∧
      ∀ p ∈ l, srcKey o ≤ srcKey p := by
  obtain ⟨m, hm⟩ := min_src_rank_isSome l hne
  obtain ⟨⟨g, hgmem, hgsrc⟩, hmle⟩ := min_src_rank_spec l m hm
  have hfne : l.filter (fun p => srcKey p = m) ≠ [] := by
    intro h0
    have hgf : g ∈ l.filter (fun p => srcKey p = m) :=
      List.mem_filter.mpr ⟨hgmem, by simp [hgsrc]⟩
    rw [h0] at hgf
    simp at hgf
  obtain ⟨o, i, hi, h1, h2, h3, h4⟩ := latest_earliest_spec _ hfne
  have homem : o ∈ l.filter (fun p => srcKey p = m) := by
    rw [← h2]
    exact List.get_mem _ _ _
  have hom : srcKey o = m := of_decide_eq_true (List.mem_filter.mp homem).2
  refine ⟨o, ?_, (List.mem_filter.mp homem).1, ?_⟩
  · rw [select_eq_simple l hne, simple_select, hm]
    exact h1
  · intro p hp
    rw [hom]
    exact hmle p hp

theorem latest_earliest_map {α β : Type} (f : α → β) (l : List (Obs α)) :
    latest_earliest (l.map (mapData f)) = Option.map (mapData f) (latest_earliest l) := by
  induction l with
  | nil => rfl
  | cons x xs ih =>
    rw [List.map_cons, latest_earliest, latest_earliest, ih]
    cases hlx : latest_earliest xs with
    | none => rfl
    | some m =>
      show some (if x.timestamp < m.timestamp then mapData f m else mapData f x) =
        some (mapData f (if x.timestamp < m.timestamp then m else x))
      by_cases hc : x.timestamp < m.timestamp
      · rw [if_pos hc, if_pos hc]
      · rw [if_neg hc, if_neg hc]

theorem min_src_rank_map {α β : Type} (f : α → β) (l : List (Obs α)) :
    min_src_rank (l.map (mapData f)) = min_src_rank l := by
  cases l with
  | nil => rfl
  | cons x xs =>
    rw [List.map_cons, min_src_rank, min_src_rank, List.foldl_map]
    rfl

theorem filter_mapData {α β : Type} (f : α → β) (q : Obs α → Bool) (r : Obs β → Bool)
    (hq : ∀ p, r (mapData f p) = q p) (l : List (Obs α)) :
    (l.map (mapData f)).filter r = (l.filter q).map (mapData f) := by
  induction l with
  | nil => rfl
  | cons x xs ih =>
    rw [List.map_cons, List.filter_cons, List.filter_cons, hq, ih]
    by_cases h : q x
    · rw [if_pos h, if_pos h, List.map_cons]
    · rw [if_neg h, if_neg h]

/-- The selection never looks at the payload: it commutes with payload mapping. -/
theorem select_map {α β : Type} (f : α → β) (l : List (Obs α)) :
    select_most_relevant_data (l.map (mapData f)) =
      Option.map (mapData f) (select_most_relevant_data l) := by
  cases hl : l with
  | nil => rfl
  | cons x xs =>
    rw [← hl]
    have hne : l ≠ [] := by
      rw [hl]
      exact List.cons_ne_nil x xs
    have hne2 : l.map (mapData f) ≠ [] := by
      intro h0
      have hlen := congrArg List.length h0
      rw [List.length_map] at hlen
      exact hne (List.length_eq_zero.mp hlen)
    rw [select_eq_simple _ hne2, select_eq_simple _ hne]
    rw [simple_select, simple_select, min_src_rank_map]
    cases hm : min_src_rank l with
    | none => rfl
    | some m =>
      show latest_earliest ((l.map (mapData f)).filter (fun p => srcKey p = m)) =
        Option.map (mapData f) (latest_earliest (l.filter (fun p => srcKey p = m)))
      rw [filter_mapData f (fun p => decide (srcKey p = m)) (fun p => decide (srcKey p = m))
        (fun p => rfl) l]
      exact latest_earliest_map f _

theorem zip_proj {α β : Type} :
    ∀ (l1 : List (Obs α)) (l2 : List (Obs β)),
      List.Forall₂ (fun p q => p.source = q.source ∧ p.timestamp = q.timestamp) l1 l2 →
      (List.zipWith (fun p q => Obs.mk (p.data, q.data) p.source p.timestamp) l1 l2).map
          (mapData Prod.fst) = l1 ∧
      (List.zipWith (fun p q => Obs.mk (p.data, q.data) p.source p.timestamp) l1 l2).map
          (mapData Prod.snd) = l2 := by
  intro l1 l2 h
  induction h with
  | nil => exact ⟨rfl, rfl⟩
  | @cons p q t1 t2 hpq hrest ih =>
    rw [List.zipWith_cons_cons, List.map_cons, List.map_cons]
    obtain ⟨hs, ht⟩ := hpq
    constructor
    · rw [ih.1]
      rfl
    · rw [ih.2]
      show Obs.mk q.data p.source p.timestamp :: t2 = q :: t2
      rw [hs, ht]

/-- Claim C1: for every non-empty input sequence of observations,
`select_most_relevant_data` terminates (it is a total function here) and
returns one element of the input sequence verbatim, never a synthesized or
merged value. -/
theorem C1_select_returns_member {α : Type} (l : List (Obs α)) (hne : l ≠ []) :
    ∃ o, select_most_relevant_data l = some o ∧ o ∈ l := by
  obtain ⟨o, h1, h2, _⟩ := select_some_mem l hne
  exact ⟨o, h1, h2⟩

theorem C1_witness :
    ([⟨0, DataSource.FSIN, 0⟩] : List (Obs Nat)) ≠ [] ∧
    ∃ o, select_most_relevant_data ([⟨0, DataSource.FSIN, 0⟩] : List (Obs Nat)) = some o ∧
      o ∈ ([⟨0, DataSource.FSIN, 0⟩] : List (Obs Nat)) :=
  ⟨by decide, C1_select_returns_member _ (by decide)⟩

/-- Claim C2: applied to the empty sequence, `select_most_relevant_data`
fails with the empty-input error (the Python `ValueError`, modelled as
`none`) and never silently returns a sentinel observation. -/
theorem C2_select_empty_fails (α : Type) :
    select_most_relevant_data ([] : List (Obs α)) = none := rfl

/-- Claim C3: the returned observation always belongs to the group whose
confirmation status has the best (lowest) rank among the statuses present
in the input; in particular an observation whose confirmation status
strictly dominates all others wins regardless of timestamp or source
trust. -/
theorem C3_best_confirmation_group {α : Type} (l : List (Obs α)) (hne : l ≠ []) :
    ∃ o, select_most_relevant_data l = some o ∧ o ∈ l ∧
      (∀ p ∈ l, (confKey o).get_confirmation_priority ≤
        (confKey p).get_confirmation_priority) ∧
      ∀ d ∈ l, (∀ p ∈ l, p ≠ d →
          (confKey d).get_confirmation_priority <
            (confKey p).get_confirmation_priority) →
        o = d := by
  obtain ⟨o, h1, h2, h3⟩ := select_some_mem l hne
  have hcp : ∀ p ∈ l, (confKey o).get_confirmation_priority ≤
      (confKey p).get_confirmation_priority :=
    fun p hp => conf_monotone o.source p.source (h3 p hp)
  refine ⟨o, h1, h2, hcp, ?_⟩
  intro d hd hdom
  by_contra hne2
  exact absurd (hcp d hd) (Nat.not_le_of_lt (hdom o h2 hne2))

theorem C3_witness :
    ([⟨0, DataSource.MANUAL_UNCONFIRMED, 100⟩, ⟨1, DataSource.FSIN, 0⟩] : List (Obs Nat)) ≠ [] ∧
    ∃ o, select_most_relevant_data
        ([⟨0, DataSource.MANUAL_UNCONFIRMED, 100⟩, ⟨1, DataSource.FSIN, 0⟩] : List (Obs Nat)) = some o ∧
      o ∈ ([⟨0, DataSource.MANUAL_UNCONFIRMED, 100⟩, ⟨1, DataSource.FSIN, 0⟩] : List (Obs Nat)) ∧
      (∀ p ∈ ([⟨0, DataSource.MANUAL_UNCONFIRMED, 100⟩, ⟨1, DataSource.FSIN, 0⟩] : List (Obs Nat)),
        (confKey o).get_confirmation_priority ≤ (confKey p).get_confirmation_priority) ∧
      ∀ d ∈ ([⟨0, DataSource.MANUAL_UNCONFIRMED, 100⟩, ⟨1, DataSource.FSIN, 0⟩] : List (Obs Nat)),
        (∀ p ∈ ([⟨0, DataSource.MANUAL_UNCONFIRMED, 100⟩, ⟨1, DataSource.FSIN, 0⟩] : List (Obs Nat)),
          p ≠ d → (confKey d).get_confirmation_priority < (confKey p).get_confirmation_priority) →
        o = d :=
  ⟨by decide, C3_best_confirmation_group _ (by decide)⟩

/-- Claim C4: when all observations share the same confirmation status and
the same source rank, the observation with the maximum timestamp wins, and
an exact timestamp tie resolves to the earliest input position. -/
theorem C4_tied_tiers_latest_wins {α : Type} (l : List (Obs α)) (hne : l ≠ [])
    (_hconf : ∀ p ∈ l, ∀ q ∈ l, confKey p = confKey q)
    (hsrc : ∀ p ∈ l, ∀ q ∈ l, srcKey p = srcKey q) :
    ∃ (o : Obs α) (i : Nat) (hi : i < l.length),
      select_most_relevant_data l = some o ∧ l.get ⟨i, hi⟩ = o ∧
      (∀ p ∈ l, p.timestamp ≤ o.timestamp) ∧
      ∀ (j : Nat) (hj : j < l.length), j < i →
        (l.get ⟨j, hj⟩).timestamp < o.timestamp := by
  obtain ⟨m, hm⟩ := min_src_rank_isSome l hne
  obtain ⟨⟨g, hgmem, hgsrc⟩, hmle⟩ := min_src_rank_spec l m hm
  have hall : ∀ p ∈ l, srcKey p = m := fun p hp => (hsrc p hp g hgmem).trans hgsrc
  have hfilt : l.filter (fun p => srcKey p = m) = l := by
    apply List.filter_eq_self.mpr
    intro p hp
    simp [hall p hp]
  have hsel : select_most_relevant_data l = latest_earliest l := by
    rw [select_eq_simple l hne, simple_select, hm]
    show latest_earliest (l.filter (fun p => srcKey p = m)) = latest_earliest l
    rw [hfilt]
  obtain ⟨o, i, hi, h1, h2, h3, h4⟩ := latest_earliest_spec l hne
  exact ⟨o, i, hi, by rw [hsel, h1], h2, h3, h4⟩

theorem C4_witness :
    (([⟨5, DataSource.ROSSTAT, 4⟩, ⟨6, DataSource.ROSSTAT, 9⟩, ⟨7, DataSource.ROSSTAT, 9⟩] : List (Obs Nat)) ≠ [] ∧
     (∀ p ∈ ([⟨5, DataSource.ROSSTAT, 4⟩, ⟨6, DataSource.ROSSTAT, 9⟩, ⟨7, DataSource.ROSSTAT, 9⟩] : List (Obs Nat)),
       ∀ q ∈ ([⟨5, DataSource.ROSSTAT, 4⟩, ⟨6, DataSource.ROSSTAT, 9⟩, ⟨7, DataSource.ROSSTAT, 9⟩] : List (Obs Nat)),
       confKey p = confKey q) ∧
     (∀ p ∈ ([⟨5, DataSource.ROSSTAT, 4⟩, ⟨6, DataSource.ROSSTAT, 9⟩, ⟨7, DataSource.ROSSTAT, 9⟩] : List (Obs Nat)),
       ∀ q ∈ ([⟨5, DataSource.ROSSTAT, 4⟩, ⟨6, DataSource.ROSSTAT, 9⟩, ⟨7, DataSource.ROSSTAT, 9⟩] : List (Obs Nat)),
       srcKey p = srcKey q)) ∧
    ∃ (o : Obs Nat) (i : Nat)
      (hi : i < ([⟨5, DataSource.ROSSTAT, 4⟩, ⟨6, DataSource.ROSSTAT, 9⟩, ⟨7, DataSource.ROSSTAT, 9⟩] : List (Obs Nat)).length),
      select_most_relevant_data ([⟨5, DataSource.ROSSTAT, 4⟩, ⟨6, DataSource.ROSSTAT, 9⟩, ⟨7, DataSource.ROSSTAT, 9⟩] : List (Obs Nat)) = some o ∧
      ([⟨5, DataSource.ROSSTAT, 4⟩, ⟨6, DataSource.ROSSTAT, 9⟩, ⟨7, DataSource.ROSSTAT, 9⟩] : List (Obs Nat)).get ⟨i, hi⟩ = o ∧
      (∀ p ∈ ([⟨5, DataSource.ROSSTAT, 4⟩, ⟨6, DataSource.ROSSTAT, 9⟩, ⟨7, DataSource.ROSSTAT, 9⟩] : List (Obs Nat)),
        p.timestamp ≤ o.timestamp) ∧
      ∀ (j : Nat) (hj : j < ([⟨5, DataSource.ROSSTAT, 4⟩, ⟨6, DataSource.ROSSTAT, 9⟩, ⟨7, DataSource.ROSSTAT, 9⟩] : List (Obs Nat)).length),
        j < i →
        (([⟨5, DataSource.ROSSTAT, 4⟩, ⟨6, DataSource.ROSSTAT, 9⟩, ⟨7, DataSource.ROSSTAT, 9⟩] : List (Obs Nat)).get ⟨j, hj⟩).timestamp < o.timestamp :=
  ⟨⟨by decide, by decide, by decide⟩,
   C4_tied_tiers_latest_wins _ (by decide) (by decide) (by decide)⟩

/-- Claim C5: when a single confirmation tier is represented, the
confirmation partition is a no-op: the result is exactly that of the
source-rank-then-recency procedure `simple_select` (latest timestamp among
the minimal source rank, earliest in input order on exact ties). -/
theorem C5_single_tier_source_then_recency {α : Type} (l : List (Obs α)) (hne : l ≠ [])
    (_hconf : ∀ p ∈ l, ∀ q ∈ l, confKey p = confKey q) :
    select_most_relevant_data l = simple_select l :=
  select_eq_simple l hne

theorem C5_witness :
    (([⟨1, DataSource.FSIN, 3⟩, ⟨2, DataSource.ROSSTAT, 8⟩] : List (Obs Nat)) ≠ [] ∧
     ∀ p ∈ ([⟨1, DataSource.FSIN, 3⟩, ⟨2, DataSource.ROSSTAT, 8⟩] : List (Obs Nat)),
       ∀ q ∈ ([⟨1, DataSource.FSIN, 3⟩, ⟨2, DataSource.ROSSTAT, 8⟩] : List (Obs Nat)),
       confKey p = confKey q) ∧
    select_most_relevant_data ([⟨1, DataSource.FSIN, 3⟩, ⟨2, DataSource.ROSSTAT, 8⟩] : List (Obs Nat)) =
      simple_select ([⟨1, DataSource.FSIN, 3⟩, ⟨2, DataSource.ROSSTAT, 8⟩] : List (Obs Nat)) :=
  ⟨⟨by decide, by decide⟩,
   C5_single_tier_source_then_recency _ (by decide) (by decide)⟩

/-- Claim C6: both tri-state comparisons satisfy the trichotomy: -1 exactly
when the first argument has strictly lower rank, 1 exactly when it has
strictly higher rank, and 0 exactly on identical tags (ranks are
unique). -/
theorem C6_compare_trichotomy :
    (∀ a b : DataSource,
      (compare_data_sources a b = -1 ↔
        a.get_hierarchy_priority < b.get_hierarchy_priority) ∧
      (compare_data_sources a b = 1 ↔
        b.get_hierarchy_priority < a.get_hierarchy_priority) ∧
      (compare_data_sources a b = 0 ↔ a = b)) ∧
    ∀ s t : ConfirmationStatus,
      (compare_confirmation_status s t = -1 ↔
        s.get_confirmation_priority < t.get_confirmation_priority) ∧
      (compare_confirmation_status s t = 1 ↔
        t.get_confirmation_priority < s.get_confirmation_priority) ∧
      (compare_confirmation_status s t = 0 ↔ s = t) := by
  decide

/-- Claim C7: the hierarchy list is a permutation of the 5 source tags, the
rank function is injective with range exactly 0..4 and rank 0 (FSIN) most
trusted; likewise the 3 confirmation statuses get unique ranks 0..2 with
rank 0 (CONFIRMED) of highest priority. -/
theorem C7_rank_tables_are_permutations :
    (∀ s : DataSource, s ∈ hierarchy_order) ∧
    hierarchy_order.Nodup ∧
    hierarchy_order.length = 5 ∧
    (∀ s : DataSource, s.get_hierarchy_priority < 5) ∧
    (∀ s t : DataSource, s.get_hierarchy_priority = t.get_hierarchy_priority → s = t) ∧
    (∀ n : Fin 5, ∃ s : DataSource, s.get_hierarchy_priority = n.val) ∧
    DataSource.FSIN.get_hierarchy_priority = 0 ∧
    (∀ c : ConfirmationStatus, c ∈ confirmation_order) ∧
    confirmation_order.Nodup ∧
    confirmation_order.length = 3 ∧
    (∀ c : ConfirmationStatus, c.get_confirmation_priority < 3) ∧
    (∀ c d : ConfirmationStatus,
      c.get_confirmation_priority = d.get_confirmation_priority → c = d) ∧
    (∀ n : Fin 3, ∃ c : ConfirmationStatus, c.get_confirmation_priority = n.val) ∧
    ConfirmationStatus.CONFIRMED.get_confirmation_priority = 0 := by
  decide

/-- Claim C8: every source tag has a hierarchy rank and an entry in the
source-to-confirmation map (the `UnknownSource`/`UnmappedSource` failure
branches are unreachable), and `select_most_relevant_data` never fails on a
non-empty, well-typed input. -/
theorem C8_lookups_total_select_safe :
    (∀ s : DataSource,
      get_confirmation_status? s = some (get_confirmation_status s) ∧
      s ∈ hierarchy_order ∧
      get_confirmation_status s ∈ confirmation_order) ∧
    ∀ (α : Type) (l : List (Obs α)), l ≠ [] →
      (select_most_relevant_data l).isSome := by
  constructor
  · decide
  · intro α l hne
    obtain ⟨o, h1, _, _⟩ := select_some_mem l hne
    rw [h1]
    rfl

theorem C8_witness :
    ([⟨0, DataSource.ROSSTAT, 3⟩] : List (Obs Nat)) ≠ [] ∧
    (select_most_relevant_data ([⟨0, DataSource.ROSSTAT, 3⟩] : List (Obs Nat))).isSome :=
  ⟨by decide, C8_lookups_total_select_safe.2 Nat _ (by decide)⟩

/-- Claim C10: the source-to-confirmation map is monotone along the source
hierarchy, hence the winner always carries the minimal source rank of the
whole input and the full cascade is extensionally equal to the simpler
procedure `simple_select` (minimal source rank, then latest timestamp,
earliest on exact ties). -/
theorem C10_select_refines_minrank_recency {α : Type} (l : List (Obs α)) (hne : l ≠ []) :
    (∀ a b : DataSource, a.get_hierarchy_priority ≤ b.get_hierarchy_priority →
      (get_confirmation_status a).get_confirmation_priority ≤
        (get_confirmation_status b).get_confirmation_priority) ∧
    select_most_relevant_data l = simple_select l ∧
    ∀ o, select_most_relevant_data l = some o →
      o ∈ l ∧ ∀ p ∈ l, srcKey o ≤ srcKey p := by
  refine ⟨conf_monotone, select_eq_simple l hne, ?_⟩
  intro o ho
  obtain ⟨o', h1, h2, h3⟩ := select_some_mem l hne
  rw [ho] at h1
  injection h1 with h1
  rw [h1]
  exact ⟨h2, h3⟩

theorem C10_witness :
    ([⟨0, DataSource.MANUAL_CONFIRMED, 50⟩, ⟨1, DataSource.AUDIT_RU, 1⟩] : List (Obs Nat)) ≠ [] ∧
    ((∀ a b : DataSource, a.get_hierarchy_priority ≤ b.get_hierarchy_priority →
       (get_confirmation_status a).get_confirmation_priority ≤
         (get_confirmation_status b).get_confirmation_priority) ∧
     select_most_relevant_data
       ([⟨0, DataSource.MANUAL_CONFIRMED, 50⟩, ⟨1, DataSource.AUDIT_RU, 1⟩] : List (Obs Nat)) =
       simple_select
         ([⟨0, DataSource.MANUAL_CONFIRMED, 50⟩, ⟨1, DataSource.AUDIT_RU, 1⟩] : List (Obs Nat)) ∧
     ∀ o, select_most_relevant_data
         ([⟨0, DataSource.MANUAL_CONFIRMED, 50⟩, ⟨1, DataSource.AUDIT_RU, 1⟩] : List (Obs Nat)) = some o →
       o ∈ ([⟨0, DataSource.MANUAL_CONFIRMED, 50⟩, ⟨1, DataSource.AUDIT_RU, 1⟩] : List (Obs Nat)) ∧
       ∀ p ∈ ([⟨0, DataSource.MANUAL_CONFIRMED, 50⟩, ⟨1, DataSource.AUDIT_RU, 1⟩] : List (Obs Nat)),
         srcKey o ≤ srcKey p) :=
  ⟨by decide, C10_select_refines_minrank_recency _ (by decide)⟩

/-- Claim C9: `select_most_relevant_data` never inspects the opaque value
payload: for two inputs that agree pairwise on source and timestamp and
differ only in their payloads, it selects the observation at the same
input position in both runs. -/
theorem C9_payload_never_inspected {α β : Type} (l1 : List (Obs α)) (l2 : List (Obs β))
    (hne : l1 ≠ [])
    (h : List.Forall₂ (fun p q => p.source = q.source ∧ p.timestamp = q.timestamp) l1 l2) :
    ∃ (i : Nat) (h1 : i < l1.length) (h2 : i < l2.length),
      select_most_relevant_data l1 = some (l1.get ⟨i, h1⟩) ∧
      select_most_relevant_data l2 = some (l2.get ⟨i, h2⟩) := by
  obtain ⟨l', hfst, hsnd⟩ :
      ∃ l' : List (Obs (α × β)),
        l'.map (mapData Prod.fst) = l1 ∧ l'.map (mapData Prod.snd) = l2 :=
    ⟨_, zip_proj l1 l2 h⟩
  subst hfst
  subst hsnd
  have hne' : l' ≠ [] := by
    intro h0
    rw [h0] at hne
    exact hne rfl
  obtain ⟨o, ho, homem, _⟩ := select_some_mem l' hne'
  obtain ⟨⟨i, hi⟩, hgot⟩ := List.get_of_mem homem
  have h1 : i < (l'.map (mapData Prod.fst)).length := by
    rw [List.length_map]
    exact hi
  have h2 : i < (l'.map (mapData Prod.snd)).length := by
    rw [List.length_map]
    exact hi
  have hgm1 : (l'.map (mapData Prod.fst)).get ⟨i, h1⟩ = mapData Prod.fst (l'.get ⟨i, hi⟩) := by
    rw [List.get_eq_getElem, List.get_eq_getElem, List.getElem_map]
  have hgm2 : (l'.map (mapData Prod.snd)).get ⟨i, h2⟩ = mapData Prod.snd (l'.get ⟨i, hi⟩) := by
    rw [List.get_eq_getElem, List.get_eq_getElem, List.getElem_map]
  refine ⟨i, h1, h2, ?_, ?_⟩
  · rw [select_map Prod.fst l', ho, hgm1, hgot]
    rfl
  · rw [select_map Prod.snd l', ho, hgm2, hgot]
    rfl

theorem C9_witness :
    ([⟨10, DataSource.FSIN, 1⟩, ⟨20, DataSource.ROSSTAT, 2⟩] : List (Obs Nat)) ≠ [] ∧
    ∃ (i : Nat)
      (h1 : i < ([⟨10, DataSource.FSIN, 1⟩, ⟨20, DataSource.ROSSTAT, 2⟩] : List (Obs Nat)).length)
      (h2 : i < ([⟨true, DataSource.FSIN, 1⟩, ⟨false, DataSource.ROSSTAT, 2⟩] : List (Obs Bool)).length),
      select_most_relevant_data ([⟨10, DataSource.FSIN, 1⟩, ⟨20, DataSource.ROSSTAT, 2⟩] : List (Obs Nat)) =
        some (([⟨10, DataSource.FSIN, 1⟩, ⟨20, DataSource.ROSSTAT, 2⟩] : List (Obs Nat)).get ⟨i, h1⟩) ∧
      select_most_relevant_data ([⟨true, DataSource.FSIN, 1⟩, ⟨false, DataSource.ROSSTAT, 2⟩] : List (Obs Bool)) =
        some (([⟨true, DataSource.FSIN, 1⟩, ⟨false, DataSource.ROSSTAT, 2⟩] : List (Obs Bool)).get ⟨i, h2⟩) :=
  ⟨by decide,
   C9_payload_never_inspected _ _ (by decide)
     (List.Forall₂.cons ⟨rfl, rfl⟩ (List.Forall₂.cons ⟨rfl, rfl⟩ List.Forall₂.nil))⟩

theorem C2_witness :
    select_most_relevant_data ([] : List (Obs Nat)) = none :=
  C2_select_empty_fails Nat

theorem C6_witness :
    compare_data_sources DataSource.FSIN DataSource.ROSSTAT = -1 ↔
      DataSource.FSIN.get_hierarchy_priority < DataSource.ROSSTAT.get_hierarchy_priority :=
  (C6_compare_trichotomy.1 DataSource.FSIN DataSource.ROSSTAT).1

theorem C7_witness :
    DataSource.FSIN.get_hierarchy_priority = 0 ∧
    ConfirmationStatus.CONFIRMED.get_confirmation_priority = 0 :=
  ⟨C7_rank_tables_are_permutations.2.2.2.2.2.2.1,
   C7_rank_tables_are_permutations.2.2.2.2.2.2.2.2.2.2.2.2.2⟩
